import Mathlib

/-!
Verification development for the compile-job dispatch and execution pipeline
of a remote compilation gateway (api/src/handlers.rs).

The handlers are embedded as pure functions over an explicit environment
(a world record carrying the subprocess outcome, the destination read-back
result and the on-disk tree of build artifacts).  Text is modelled as Lean
strings; the Rust str::replace used for output sanitization is modelled by
an executable left-to-right single-pass replacement over the underlying
character lists.
-/

/-- Boolean test that the first list is a leading segment of the second. -/
def isPre : List Char → List Char → Bool
  | [], _ => true
  | _ :: _, [] => false
  | a :: as, b :: bs => a = b && isPre as bs

/-- Boolean substring test: pat occurs somewhere inside t. -/
def containsSub (t pat : List Char) : Bool :=
  match t with
  | [] => pat.isEmpty
  | _ :: cs => isPre pat t || containsSub cs pat

/-- Fuel-driven worker for replaceAll; the fuel dominates the length of the
remaining text, so the zero-fuel arm is never reached from replaceAll. -/
def repGo (pat rep : List Char) : Nat → List Char → List Char
  | _, [] => []
  | 0, t => t
  | fuel + 1, c :: cs =>
      if isPre pat (c :: cs) then rep ++ repGo pat rep fuel (cs.drop (pat.length - 1))
      else c :: repGo pat rep fuel cs

/-- Model of Rust str::replace: one left-to-right pass replacing each
non-overlapping occurrence of pat with rep; the replaced span is not
rescanned. -/
def replaceAll (t pat rep : List Char) : List Char :=
  repGo pat rep t.length t

theorem repGo_nil (pat rep : List Char) (fuel : Nat) : repGo pat rep fuel [] = [] := by
  cases fuel <;> rfl

theorem repGo_fuel_irrel (pat rep : List Char) :
    ∀ (fuel fuel' : Nat) (t : List Char), t.length ≤ fuel → t.length ≤ fuel' →
      repGo pat rep fuel t = repGo pat rep fuel' t := by
  intro fuel
  induction fuel with
  | zero =>
    intro fuel' t ht _
    have : t = [] := List.eq_nil_of_length_eq_zero (Nat.le_zero.mp ht)
    subst this
    simp [repGo_nil]
  | succ f ih =>
    intro fuel' t ht ht'
    match t with
    | [] => simp [repGo_nil]
    | c :: cs =>
      match fuel' with
      | 0 => exact absurd ht' (by simp)
      | f' + 1 =>
        simp only [repGo]
        by_cases hp : isPre pat (c :: cs)
        · simp only [hp, if_true]
          have hlen : (cs.drop (pat.length - 1)).length ≤ cs.length := by
            simp [List.length_drop]
          have h1 : (cs.drop (pat.length - 1)).length ≤ f :=
            le_trans hlen (by simpa using ht)
          have h2 : (cs.drop (pat.length - 1)).length ≤ f' :=
            le_trans hlen (by simpa using ht')
          rw [ih f' _ h1 h2]
        · have h1 : cs.length ≤ f := by simpa using ht
          have h2 : cs.length ≤ f' := by simpa using ht'
          simp only [hp, if_false, Bool.false_eq_true]
          rw [ih f' cs h1 h2]

theorem replaceAll_nil (pat rep : List Char) : replaceAll [] pat rep = [] := rfl

theorem replaceAll_pos (pat rep : List Char) (c : Char) (cs : List Char)
    (h : isPre pat (c :: cs) = true) :
    replaceAll (c :: cs) pat rep = rep ++ replaceAll (cs.drop (pat.length - 1)) pat rep := by
  unfold replaceAll
  simp only [List.length_cons, repGo, h, if_true]
  congr 1
  exact repGo_fuel_irrel pat rep cs.length (cs.drop (pat.length - 1)).length _
    (by simp [List.length_drop]) le_rfl

theorem replaceAll_neg (pat rep : List Char) (c : Char) (cs : List Char)
    (h : isPre pat (c :: cs) = false) :
    replaceAll (c :: cs) pat rep = c :: replaceAll cs pat rep := by
  unfold replaceAll
  simp only [List.length_cons, repGo, h, if_false, Bool.false_eq_true]

theorem isPre_append_self (p rest : List Char) : isPre p (p ++ rest) = true := by
  induction p with
  | nil => rfl
  | cons a as ih => simp [isPre, ih]

theorem containsSub_nil_pat (z : List Char) : containsSub z [] = true := by
  cases z <;> simp [containsSub, isPre, List.isEmpty]

theorem containsSub_self_append (p z : List Char) : containsSub (p ++ z) p = true := by
  cases p with
  | nil => simpa using containsSub_nil_pat z
  | cons a as =>
    simp only [containsSub, Bool.or_eq_true]
    exact Or.inl (by simpa using isPre_append_self (a :: as) z)

theorem containsSub_cons_of (c : Char) (t pat : List Char)
    (h : containsSub t pat = true) : containsSub (c :: t) pat = true := by
  simp [containsSub, h]

/-- Replacing inside a text that contains the pattern makes the replacement
text appear in the output. -/
theorem containsSub_replaceAll (t pat rep : List Char)
    (hpat : pat ≠ []) (h : containsSub t pat = true) :
    containsSub (replaceAll t pat rep) rep = true := by
  induction t with
  | nil =>
    simp [containsSub, List.isEmpty_iff] at h
    exact absurd h hpat
  | cons c cs ih =>
    by_cases hp : isPre pat (c :: cs) = true
    · rw [replaceAll_pos pat rep c cs hp]
      exact containsSub_self_append rep _
    · have hns : isPre pat (c :: cs) = false := by
        cases hval : isPre pat (c :: cs)
        · rfl
        · exact absurd hval hp
      rw [replaceAll_neg pat rep c cs hns]
      have hcs : containsSub cs pat = true := by
        simp [containsSub, hns] at h
        exact h
      exact containsSub_cons_of c _ rep (ih hcs)

theorem replaceAll_of_not_contains (t pat rep : List Char)
    (h : containsSub t pat = false) : replaceAll t pat rep = t := by
  induction t with
  | nil => rfl
  | cons c cs ih =>
    have hsplit : isPre pat (c :: cs) = false ∧ containsSub cs pat = false := by
      have := h
      simp [containsSub] at this
      exact this
    rw [replaceAll_neg pat rep c cs hsplit.1, ih hsplit.2]

/-- Replacement fires on an occurrence of the pattern sitting at the front of
the text and continues after the consumed span. -/
theorem replaceAll_head_occ (p : Char) (ps rest rep : List Char) :
    replaceAll ((p :: ps) ++ rest) (p :: ps) rep = rep ++ replaceAll rest (p :: ps) rep := by
  have hpre : isPre (p :: ps) (p :: (ps ++ rest)) = true := by
    simpa using isPre_append_self (p :: ps) rest
  have := replaceAll_pos (p :: ps) rep p (ps ++ rest) hpre
  simpa [List.drop_left] using this


/-- A pattern without a dot that reaches across the dot separator must in fact
end before it: being a leading segment of s ++ dot ++ tail forces being a
leading segment of s. -/
theorem isPre_through_dot (pat : List Char) (hd : '.' ∉ pat) :
    ∀ s tail : List Char, isPre pat (s ++ '.' :: tail) = true → isPre pat s = true := by
  induction pat with
  | nil => intro s tail _; rfl
  | cons q qs ih =>
    intro s tail h
    cases s with
    | nil =>
      exfalso
      simp only [List.nil_append, isPre, Bool.and_eq_true, beq_iff_eq, decide_eq_true_eq] at h
      obtain ⟨h1, _⟩ := h
      subst h1
      exact hd (List.mem_cons_self _ _)
    | cons c s' =>
      simp only [List.cons_append, isPre, Bool.and_eq_true, beq_iff_eq, decide_eq_true_eq] at h ⊢
      obtain ⟨h1, h2⟩ := h
      refine ⟨h1, ih (fun hm => hd (List.mem_cons_of_mem q hm)) s' tail h2⟩

/-- When the pattern has no dot and does not occur in the stem, replacement
leaves the stem and the dot untouched and proceeds in the tail. -/
theorem replaceAll_skip_stem (pat rep : List Char) (hd : '.' ∉ pat) :
    ∀ s tail : List Char, containsSub s pat = false →
      replaceAll (s ++ '.' :: tail) pat rep = s ++ '.' :: replaceAll tail pat rep := by
  intro s
  induction s with
  | nil =>
    intro tail hs
    have hpat : pat ≠ [] := by
      intro h
      subst h
      simp [containsSub, List.isEmpty] at hs
    have hnp : isPre pat ('.' :: tail) = false := by
      match pat, hpat with
      | q :: qs, _ =>
        cases hval : isPre (q :: qs) ('.' :: tail) with
        | false => rfl
        | true =>
          exfalso
          simp only [isPre, Bool.and_eq_true, beq_iff_eq, decide_eq_true_eq] at hval
          obtain ⟨h1, _⟩ := hval
          subst h1
          exact hd (List.mem_cons_self _ _)
    simpa using replaceAll_neg pat rep '.' tail hnp
  | cons c s' ih =>
    intro tail hs
    have hsplit : isPre pat (c :: s') = false ∧ containsSub s' pat = false := by
      simpa [containsSub] using hs
    have hpre : isPre pat (c :: (s' ++ '.' :: tail)) = false := by
      cases hval : isPre pat (c :: (s' ++ '.' :: tail)) with
      | false => rfl
      | true =>
        exfalso
        have h' : isPre pat ((c :: s') ++ '.' :: tail) = true := by simpa using hval
        have := isPre_through_dot pat hd (c :: s') tail h'
        rw [this] at hsplit
        exact absurd hsplit.1 (by simp)
    calc replaceAll ((c :: s') ++ '.' :: tail) pat rep
        = replaceAll (c :: (s' ++ '.' :: tail)) pat rep := by simp
      _ = c :: replaceAll (s' ++ '.' :: tail) pat rep := replaceAll_neg pat rep c _ hpre
      _ = c :: (s' ++ '.' :: replaceAll tail pat rep) := by rw [ih tail hsplit.2]
      _ = (c :: s') ++ '.' :: replaceAll tail pat rep := by simp

theorem takeWhile_append_stop (p : Char → Bool) (l : List Char) (x : Char) (z : List Char)
    (hl : ∀ a ∈ l, p a = true) (hx : p x = false) :
    (l ++ x :: z).takeWhile p = l := by
  induction l with
  | nil => simp [List.takeWhile_cons, hx]
  | cons a l' ih =>
    have ha := hl a (List.mem_cons_self a l')
    have ih' := ih (fun b hb => hl b (List.mem_cons_of_mem a hb))
    simp [List.takeWhile_cons, ha, ih']

/-- Modelled from the spec: the extension extractor of the Path Resolver
(utils/lib is not part of src) returns the substring after the last dot, or
the empty string when the path has no dot (spec section 4.1). -/
def extOf (l : List Char) : List Char :=
  if ('.' ∈ l) then ((l.reverse.takeWhile (fun c => c != '.')).reverse) else []

theorem extOf_append_dot (s tail : List Char) (hd : '.' ∉ tail) :
    extOf (s ++ '.' :: tail) = tail := by
  have hmem : '.' ∈ s ++ '.' :: tail := List.mem_append_right s (List.mem_cons_self _ _)
  have hrev : (s ++ '.' :: tail).reverse = tail.reverse ++ '.' :: s.reverse := by
    simp
  have hall : ∀ a ∈ tail.reverse, (a != '.') = true := by
    intro a ha
    have hmem' : a ∈ tail := List.mem_reverse.mp ha
    have hne : a ≠ '.' := fun heq => hd (heq ▸ hmem')
    simpa [bne_iff_ne] using hne
  have hx : (('.' : Char) != '.') = false := by simp
  unfold extOf
  rw [if_pos hmem, hrev, takeWhile_append_stop (fun c => c != '.') tail.reverse '.' s.reverse hall hx]
  exact List.reverse_reverse tail

/-- Substring test on strings, via the underlying character lists. -/
def containsS (t pat : String) : Bool := containsSub t.data pat.data

/-- Model of Rust str::replace on strings. -/
def replaceS (t pat rep : String) : String := ⟨replaceAll t.data pat.data rep.data⟩

/-- Modelled from the spec: get_file_ext lives in utils/lib, which is not part
of src; per spec section 4.1 it returns the substring after the last dot, or
the empty string when there is none. -/
def get_file_ext (s : String) : String := ⟨extOf s.data⟩

/-- Modelled from the spec: joining of a root and a relative path (Path::join
with a relative right-hand side) appends the relative path after a
separator. -/
def pathJoin (root rel : String) : String := root ++ "/" ++ rel

/-- Modelled from the spec: the three fixed filesystem roots and the compiler
toolchain build directory (spec section 6) are configuration values defined
outside src; they are modelled as an explicit configuration record. -/
structure Config where
  projectRoot : String
  sierraRoot : String
  casmRoot : String
  cairoDir : String
deriving DecidableEq

/-- Modelled from the spec: get_file_path lives in utils/lib, which is not
part of src; per spec section 4.1 the Path Resolver joins the project root
and the caller-relative path. -/
def get_file_path (cfg : Config) (rel : String) : String := pathJoin cfg.projectRoot rel

structure CompileResponse where
  status : String
  message : String
  file_content : String
deriving DecidableEq

structure FileContentMap where
  file_name : String
  file_content : String
deriving DecidableEq

structure ScarbCompileResponse where
  status : String
  message : String
  file_content_map_array : List FileContentMap
deriving DecidableEq

/-- One attempted subprocess invocation: executable, working directory and
argument list, in the order the handler passes them. -/
structure CmdInvocation where
  program : String
  workdir : String
  args : List String
deriving DecidableEq

/-- Result of running a handler: a value together with the subprocess
invocation it performed (none when it returned before spawning), or an abort
of the whole request (the Rust expect panic on a failed spawn). -/
inductive Outcome (α : Type) where
  | ok (val : α) (cmd : Option CmdInvocation)
  | panicked
deriving DecidableEq

/-- Outcome of reading back the destination artifact, following the nesting
in the source: NamedFile::open may fail, the opened path may not be UTF-8
representable, and read_to_string may fail with an error whose display text
is msg. -/
inductive DestRead where
  | openFail
  | pathInvalid
  | readErr (msg : String)
  | readOk (content : String)
deriving DecidableEq

/-- Environment of one Sierra or CASM compile job: whether the spawn fails,
the exit code the completed subprocess reports (none when killed by a
signal), its captured stderr decoded as text, and the destination read-back
outcome. -/
structure CompileWorld where
  spawnFails : Bool
  exitCode : Option Int
  stderr : String
  destRead : DestRead
deriving DecidableEq

/-- On-disk tree of a directory entry: a regular file together with the
result of read_to_string on it (none when unreadable or not valid UTF-8), or
a directory with its children in directory-iteration order. -/
inductive FsTree where
  | file (name : String) (content : Option String)
  | dir (name : String) (children : List FsTree)

/-- Files collected from a list of directory entries, in order: a readable
file contributes its base name and content, a directory contributes its
recursive collection spliced in place. -/
def collectFiles : List FsTree → List FileContentMap
  | [] => []
  | FsTree.file nm (some content) :: rest =>
      { file_name := nm, file_content := content } :: collectFiles rest
  | FsTree.file _ none :: rest => collectFiles rest
  | FsTree.dir _ children :: rest => collectFiles children ++ collectFiles rest

/-- Embedding of get_files_recursive: the argument is the entry found at the
base path (none when the path does not exist); anything that is not a
directory yields the empty collection. -/
def get_files_recursive : Option FsTree → List FileContentMap
  | some (FsTree.dir _ children) => collectFiles children
  | _ => []

/-- Environment of one Scarb build job: spawn outcome, exit code, captured
stdout and stderr decoded as text, and the filesystem as a map from a path to
the entry found there. -/
structure ScarbWorld where
  spawnFails : Bool
  exitCode : Option Int
  stdout : String
  stderr : String
  fs : String → Option FsTree

/-- Environment of one version query: spawn outcome and the result of
decoding the captured stdout bytes as UTF-8 (the error side carries the
display text of the decode error). -/
structure VersionWorld where
  spawnFails : Bool
  stdoutUtf8 : Except String String

/-- Embedding of do_compile_to_sierra from api/src/handlers.rs. -/
def do_compile_to_sierra (cfg : Config) (remix_file_path : Option String)
    (w : CompileWorld) : Outcome CompileResponse :=
  match remix_file_path with
  | none =>
      Outcome.ok
        { status := "FileNotFound",
          message := "File path not found",
          file_content := "" } none
  | some rfp =>
      if get_file_ext rfp = "cairo" then
        let file_path := get_file_path cfg rfp
        let sierra_remix_path := replaceS rfp (get_file_ext rfp) "sierra"
        let sierra_path := pathJoin cfg.sierraRoot sierra_remix_path
        let cmd : CmdInvocation :=
          { program := "cargo", workdir := cfg.cairoDir,
            args := [ "run", "--release", "--bin", "starknet-compile", "--",
              file_path, sierra_path, "--single-file" ] }
        if w.spawnFails then Outcome.panicked
        else
          Outcome.ok
            { status :=
                match w.exitCode with
                | some 0 => "Success"
                | some _ => "CompilationFailed"
                | none => "UnknownError",
              message :=
                replaceS (replaceS w.stderr file_path rfp) sierra_path sierra_remix_path,
              file_content :=
                match w.destRead with
                | DestRead.readOk content => content
                | DestRead.readErr msg => msg
                | DestRead.pathInvalid => ""
                | DestRead.openFail => "" } (some cmd)
      else
        Outcome.ok
          { status := "FileExtensionNotSupported",
            message := "File extension not supported",
            file_content := "" } none

/-- Embedding of do_compile_to_casm from api/src/handlers.rs. -/
def do_compile_to_casm (cfg : Config) (remix_file_path : Option String)
    (w : CompileWorld) : Outcome CompileResponse :=
  match remix_file_path with
  | none =>
      Outcome.ok
        { status := "FileNotFound",
          message := "File path not found",
          file_content := "" } none
  | some rfp =>
      if get_file_ext rfp = "sierra" then
        let file_path := get_file_path cfg rfp
        let casm_remix_path := replaceS rfp (get_file_ext rfp) "casm"
        let casm_path := pathJoin cfg.casmRoot casm_remix_path
        let cmd : CmdInvocation :=
          { program := "cargo", workdir := cfg.cairoDir,
            args := [ "run", "--release", "--bin", "starknet-sierra-compile", "--",
              file_path, casm_path ] }
        if w.spawnFails then Outcome.panicked
        else
          Outcome.ok
            { status :=
                match w.exitCode with
                | some 0 => "Success"
                | some _ => "SierraCompilationFailed"
                | none => "UnknownError",
              message :=
                replaceS (replaceS w.stderr file_path rfp) casm_path casm_remix_path,
              file_content :=
                match w.destRead with
                | DestRead.readOk content => content
                | DestRead.readErr msg => msg
                | DestRead.pathInvalid => ""
                | DestRead.openFail => "" } (some cmd)
      else
        Outcome.ok
          { status := "FileExtensionNotSupported",
            message := "File extension not supported",
            file_content := "" } none

/-- Embedding of do_scarb_compile from api/src/handlers.rs. -/
def do_scarb_compile (cfg : Config) (remix_file_path : Option String)
    (w : ScarbWorld) : Outcome ScarbCompileResponse :=
  match remix_file_path with
  | none =>
      Outcome.ok
        { status := "FileNotFound",
          message := "File path not found",
          file_content_map_array := [] } none
  | some rfp =>
      let file_path := get_file_path cfg rfp
      let cmd : CmdInvocation := { program := "scarb", workdir := file_path, args := [ "build" ] }
      if w.spawnFails then Outcome.panicked
      else
        Outcome.ok
          { status :=
              match w.exitCode with
              | some 0 => "Success"
              | some _ => "SierraCompilationFailed"
              | none => "UnknownError",
            message := replaceS w.stdout file_path rfp ++ replaceS w.stderr file_path rfp,
            file_content_map_array :=
              get_files_recursive (w.fs (pathJoin file_path "target/dev")) } (some cmd)

/-- Embedding of do_cairo_version from api/src/handlers.rs: the captured
stdout decoded as UTF-8 is returned as is; a decode failure is returned as
the display text of the error. -/
def do_cairo_version (cfg : Config) (w : VersionWorld) : Outcome (Except String String) :=
  let cmd : CmdInvocation :=
    { program := "cargo", workdir := cfg.cairoDir,
      args := [ "run", "-q", "--release", "--bin", "cairo-compile", "--", "--version" ] }
  if w.spawnFails then Outcome.panicked
  else
    Outcome.ok
      (match w.stdoutUtf8 with
       | Except.ok version => Except.ok version
       | Except.error e => Except.error e) (some cmd)

/-- Modelled from the spec: the HTTP route for the version query is not part
of src; per spec section 4.5 the endpoint returns the captured standard
output as plain text and fails with UnknownError when that output is not
valid UTF-8. -/
def cairo_version_endpoint (cfg : Config) (w : VersionWorld) : Outcome String :=
  match do_cairo_version cfg w with
  | Outcome.panicked => Outcome.panicked
  | Outcome.ok (Except.ok version) c => Outcome.ok version c
  | Outcome.ok (Except.error _) c => Outcome.ok "UnknownError" c

/-- Status field of a compile outcome, when the handler did not abort. -/
def statusOf : Outcome CompileResponse → Option String
  | Outcome.ok r _ => some r.status
  | Outcome.panicked => none

/-- File content field of a compile outcome, when the handler did not abort. -/
def contentOf : Outcome CompileResponse → Option String
  | Outcome.ok r _ => some r.file_content
  | Outcome.panicked => none

/-- Message field of a compile outcome, when the handler did not abort. -/
def messageOf : Outcome CompileResponse → Option String
  | Outcome.ok r _ => some r.message
  | Outcome.panicked => none

/-- Status field of a Scarb build outcome, when the handler did not abort. -/
def scarbStatusOf : Outcome ScarbCompileResponse → Option String
  | Outcome.ok r _ => some r.status
  | Outcome.panicked => none

/-- Artifact list of a Scarb build outcome, when the handler did not abort. -/
def scarbFilesOf : Outcome ScarbCompileResponse → Option (List FileContentMap)
  | Outcome.ok r _ => some r.file_content_map_array
  | Outcome.panicked => none

/-- Whether the handler proceeded to invoke the external tool: either it
recorded a spawned command, or it aborted in the attempt to spawn one. -/
def invokesCompiler {α : Type} : Outcome α → Bool
  | Outcome.ok _ (some _) => true
  | Outcome.ok _ none => false
  | Outcome.panicked => true

/-- Follows the spec words for claim C1: exit code 0 maps to Success, any
nonzero exit code maps to the failure tag of the job, and an absent exit
code maps to UnknownError. -/
def exitCodeStatus (failTag : String) : Option Int → String
  | some 0 => "Success"
  | some _ => failTag
  | none => "UnknownError"

/-- Everything before the last dot of a path, the whole path when it has no
dot. -/
def stemOf (l : List Char) : List Char :=
  if ('.' ∈ l) then (((l.reverse.dropWhile (fun c => c != '.')).drop 1).reverse) else l

/-- Follows the spec words for claim C5: the destination is the
caller-relative path with only its final extension replaced by the new one,
joined under the output root. -/
def specDestPath (root rel newExt : String) : String :=
  pathJoin root ⟨stemOf rel.data ++ '.' :: newExt.data⟩

/-- Files contributed by a single directory entry. -/
def entryOf : FsTree → List FileContentMap
  | FsTree.file nm (some content) => [ { file_name := nm, file_content := content } ]
  | FsTree.file _ none => []
  | FsTree.dir _ children => collectFiles children

theorem collectFiles_cons (t : FsTree) (rest : List FsTree) :
    collectFiles (t :: rest) = entryOf t ++ collectFiles rest := by
  cases t with
  | file nm content => cases content <;> simp [collectFiles, entryOf]
  | dir nm children => simp [collectFiles, entryOf]

/-- Number of regular files in a list of entries whose content decodes. -/
def decodableCount : List FsTree → Nat
  | [] => 0
  | FsTree.file _ (some _) :: rest => 1 + decodableCount rest
  | FsTree.file _ none :: rest => decodableCount rest
  | FsTree.dir _ children :: rest => decodableCount children + decodableCount rest

theorem length_collectFiles (l : List FsTree) :
    (collectFiles l).length = decodableCount l := by
  induction l using collectFiles.induct with
  | case1 => simp [collectFiles, decodableCount]
  | case2 nm content rest ih =>
    simp [collectFiles, decodableCount, ih]
    omega
  | case3 nm rest ih => simp [collectFiles, decodableCount, ih]
  | case4 nm children rest ih1 ih2 => simp [collectFiles, decodableCount, ih1, ih2]

/-- A decodable regular file with the given base name and content occurs
somewhere in the tree spanned by a list of entries. -/
inductive FileIn : String → String → List FsTree → Prop where
  | here (nm content : String) (rest : List FsTree) :
      FileIn nm content (FsTree.file nm (some content) :: rest)
  | inDir (nm content dn : String) (children rest : List FsTree) :
      FileIn nm content children → FileIn nm content (FsTree.dir dn children :: rest)
  | inRest (nm content : String) (e : FsTree) (rest : List FsTree) :
      FileIn nm content rest → FileIn nm content (e :: rest)

theorem mem_collectFiles (l : List FsTree) (nm content : String) :
    ({ file_name := nm, file_content := content } : FileContentMap) ∈ collectFiles l ↔
      FileIn nm content l := by
  induction l using collectFiles.induct with
  | case1 =>
    constructor
    · intro h
      simp [collectFiles] at h
    · intro h
      cases h
  | case2 nm' content' rest ih =>
    simp only [collectFiles, List.mem_cons]
    constructor
    · rintro (heq | hmem)
      · have h12 : nm = nm' ∧ content = content' := by
          simpa [FileContentMap.mk.injEq] using heq
        obtain ⟨e1, e2⟩ := h12
        subst e1
        subst e2
        exact FileIn.here nm content rest
      · exact FileIn.inRest nm content _ rest (ih.mp hmem)
    · intro h
      cases h with
      | here => left; rfl
      | inRest e rest h' => right; exact ih.mpr h'
  | case3 nm' rest ih =>
    simp only [collectFiles]
    constructor
    · intro hmem
      exact FileIn.inRest nm content _ rest (ih.mp hmem)
    · intro h
      cases h with
      | inRest e rest h' => exact ih.mpr h'
  | case4 dn children rest ih1 ih2 =>
    simp only [collectFiles, List.mem_append]
    constructor
    · rintro (hmem | hmem)
      · exact FileIn.inDir nm content dn children rest (ih1.mp hmem)
      · exact FileIn.inRest nm content _ rest (ih2.mp hmem)
    · intro h
      cases h with
      | inDir dn children rest h' => left; exact ih1.mpr h'
      | inRest e rest h' => right; exact ih2.mpr h'

/-- Two entry lists that present the same tree up to the order in which
directory iteration yields entries, at every level. -/
inductive Reorder : List FsTree → List FsTree → Prop where
  | nil : Reorder [] []
  | keep (e : FsTree) (l l' : List FsTree) : Reorder l l' → Reorder (e :: l) (e :: l')
  | shuffleDir (dn : String) (cs cs' l l' : List FsTree) :
      Reorder cs cs' → Reorder l l' →
      Reorder (FsTree.dir dn cs :: l) (FsTree.dir dn cs' :: l')
  | swap (a b : FsTree) (l : List FsTree) : Reorder (a :: b :: l) (b :: a :: l)
  | chain (l1 l2 l3 : List FsTree) : Reorder l1 l2 → Reorder l2 l3 → Reorder l1 l3

theorem collectFiles_reorder (l l' : List FsTree) (h : Reorder l l') :
    (collectFiles l).Perm (collectFiles l') := by
  induction h with
  | nil => exact List.Perm.refl _
  | keep e l l' _ ih =>
    rw [collectFiles_cons, collectFiles_cons]
    exact List.Perm.append_left _ ih
  | shuffleDir dn cs cs' l l' _ _ ih1 ih2 =>
    rw [collectFiles_cons, collectFiles_cons]
    simp only [entryOf]
    exact List.Perm.append ih1 ih2
  | swap a b l =>
    rw [collectFiles_cons, collectFiles_cons, collectFiles_cons, collectFiles_cons]
    have h1 : List.Perm ((entryOf a ++ entryOf b) ++ collectFiles l)
        ((entryOf b ++ entryOf a) ++ collectFiles l) :=
      List.Perm.append_right _ List.perm_append_comm
    simpa [List.append_assoc] using h1
  | chain l1 l2 l3 _ _ ih1 ih2 => exact ih1.trans ih2

theorem strMk_data (s : String) : String.mk s.data = s := by
  cases s with
  | mk l => rfl

theorem strData_append (a b : String) : (a ++ b).data = a.data ++ b.data := by
  cases a with
  | mk l =>
    cases b with
    | mk m => rfl

/-- C1: for every compile job (Sierra compile, CASM compile, Scarb build)
whose subprocess runs to completion, the response status is determined
totally by the exit code: 0 yields Success, every nonzero exit code yields
the failure status of the job (CompilationFailed for Sierra compile,
SierraCompilationFailed for CASM compile and Scarb build), and an absent
exit code yields UnknownError. -/
theorem exit_code_determines_status (cfg : Config) (w : CompileWorld) (sw : ScarbWorld)
    (ps pc pr : String)
    (hs : get_file_ext ps = "cairo") (hc : get_file_ext pc = "sierra")
    (hw : w.spawnFails = false) (hsw : sw.spawnFails = false) :
    statusOf (do_compile_to_sierra cfg (some ps) w) =
      some (exitCodeStatus "CompilationFailed" w.exitCode) ∧
    statusOf (do_compile_to_casm cfg (some pc) w) =
      some (exitCodeStatus "SierraCompilationFailed" w.exitCode) ∧
    scarbStatusOf (do_scarb_compile cfg (some pr) sw) =
      some (exitCodeStatus "SierraCompilationFailed" sw.exitCode) := by
  refine ⟨?_, ?_, ?_⟩
  · simp only [do_compile_to_sierra, hs, if_pos, hw, Bool.false_eq_true, if_false, statusOf]
    cases w.exitCode with
    | none => rfl
    | some n =>
      cases n with
      | ofNat k => cases k <;> rfl
      | negSucc k => rfl
  · simp only [do_compile_to_casm, hc, if_pos, hw, Bool.false_eq_true, if_false, statusOf]
    cases w.exitCode with
    | none => rfl
    | some n =>
      cases n with
      | ofNat k => cases k <;> rfl
      | negSucc k => rfl
  · simp only [do_scarb_compile, hsw, Bool.false_eq_true, if_false, scarbStatusOf]
    cases sw.exitCode with
    | none => rfl
    | some n =>
      cases n with
      | ofNat k => cases k <;> rfl
      | negSucc k => rfl

theorem exit_code_determines_status_witness :
    statusOf (do_compile_to_sierra
      { projectRoot := "u", sierraRoot := "s", casmRoot := "c", cairoDir := "d" }
      (some "a.cairo")
      { spawnFails := false, exitCode := some 127, stderr := "",
        destRead := DestRead.openFail }) =
      some (exitCodeStatus "CompilationFailed" (some 127)) ∧
    statusOf (do_compile_to_casm
      { projectRoot := "u", sierraRoot := "s", casmRoot := "c", cairoDir := "d" }
      (some "a.sierra")
      { spawnFails := false, exitCode := some 127, stderr := "",
        destRead := DestRead.openFail }) =
      some (exitCodeStatus "SierraCompilationFailed" (some 127)) ∧
    scarbStatusOf (do_scarb_compile
      { projectRoot := "u", sierraRoot := "s", casmRoot := "c", cairoDir := "d" }
      (some "proj")
      { spawnFails := false, exitCode := some 127, stdout := "", stderr := "",
        fs := fun _ => none }) =
      some (exitCodeStatus "SierraCompilationFailed" (some 127)) :=
  exit_code_determines_status
    { projectRoot := "u", sierraRoot := "s", casmRoot := "c", cairoDir := "d" }
    { spawnFails := false, exitCode := some 127, stderr := "", destRead := DestRead.openFail }
    { spawnFails := false, exitCode := some 127, stdout := "", stderr := "",
      fs := fun _ => none }
    "a.cairo" "a.sierra" "proj" (by decide) (by decide) rfl rfl

/-- C2: the Sierra compile proceeds to invoke the compiler exactly when the
extension of the input path equals cairo case-sensitively, and the CASM
compile exactly when it equals sierra; any other extension yields the
FileExtensionNotSupported response with empty file content. -/
theorem extension_gate (cfg : Config) (p : String) (w : CompileWorld) :
    (invokesCompiler (do_compile_to_sierra cfg (some p) w) = true ↔
      get_file_ext p = "cairo") ∧
    (invokesCompiler (do_compile_to_casm cfg (some p) w) = true ↔
      get_file_ext p = "sierra") ∧
    (get_file_ext p ≠ "cairo" →
      do_compile_to_sierra cfg (some p) w =
        Outcome.ok
          { status := "FileExtensionNotSupported",
            message := "File extension not supported",
            file_content := "" } none) ∧
    (get_file_ext p ≠ "sierra" →
      do_compile_to_casm cfg (some p) w =
        Outcome.ok
          { status := "FileExtensionNotSupported",
            message := "File extension not supported",
            file_content := "" } none) := by
  refine ⟨?_, ?_, ?_, ?_⟩
  · by_cases h : get_file_ext p = "cairo"
    · simp only [do_compile_to_sierra, h, if_pos]
      cases hw : w.spawnFails <;> simp [invokesCompiler, h]
    · simp [do_compile_to_sierra, h, invokesCompiler]
  · by_cases h : get_file_ext p = "sierra"
    · simp only [do_compile_to_casm, h, if_pos]
      cases hw : w.spawnFails <;> simp [invokesCompiler, h]
    · simp [do_compile_to_casm, h, invokesCompiler]
  · intro h
    simp [do_compile_to_sierra, h]
  · intro h
    simp [do_compile_to_casm, h]

theorem extension_gate_witness :
    invokesCompiler (do_compile_to_sierra
      { projectRoot := "u", sierraRoot := "s", casmRoot := "c", cairoDir := "d" }
      (some "foo.cairo")
      { spawnFails := false, exitCode := some 0, stderr := "",
        destRead := DestRead.openFail }) = true ∧
    do_compile_to_sierra
      { projectRoot := "u", sierraRoot := "s", casmRoot := "c", cairoDir := "d" }
      (some "foo.CAIRO")
      { spawnFails := false, exitCode := some 0, stderr := "",
        destRead := DestRead.openFail } =
      Outcome.ok
        { status := "FileExtensionNotSupported",
          message := "File extension not supported",
          file_content := "" } none :=
  ⟨(extension_gate
      { projectRoot := "u", sierraRoot := "s", casmRoot := "c", cairoDir := "d" }
      "foo.cairo"
      { spawnFails := false, exitCode := some 0, stderr := "",
        destRead := DestRead.openFail }).1.mpr (by decide),
   (extension_gate
      { projectRoot := "u", sierraRoot := "s", casmRoot := "c", cairoDir := "d" }
      "foo.CAIRO"
      { spawnFails := false, exitCode := some 0, stderr := "",
        destRead := DestRead.openFail }).2.2.1 (by decide)⟩

/-- C3: a request that fails validation (unsupported extension, or a path
that is not representable as UTF-8 text) makes the compile operation return
a fully-formed response with empty artifact content and no spawned
subprocess, in every environment, so no error and no abort ever reaches the
transport layer from validation. -/
theorem validation_failure_short_circuits (cfg : Config) (p : String) (w : CompileWorld) :
    do_compile_to_sierra cfg none w =
      Outcome.ok
        { status := "FileNotFound",
          message := "File path not found",
          file_content := "" } none ∧
    do_compile_to_casm cfg none w =
      Outcome.ok
        { status := "FileNotFound",
          message := "File path not found",
          file_content := "" } none ∧
    (get_file_ext p ≠ "cairo" →
      do_compile_to_sierra cfg (some p) w =
        Outcome.ok
          { status := "FileExtensionNotSupported",
            message := "File extension not supported",
            file_content := "" } none) ∧
    (get_file_ext p ≠ "sierra" →
      do_compile_to_casm cfg (some p) w =
        Outcome.ok
          { status := "FileExtensionNotSupported",
            message := "File extension not supported",
            file_content := "" } none) := by
  refine ⟨rfl, rfl, ?_, ?_⟩
  · intro h
    simp [do_compile_to_sierra, h]
  · intro h
    simp [do_compile_to_casm, h]

theorem validation_failure_short_circuits_witness :
    do_compile_to_sierra
      { projectRoot := "u", sierraRoot := "s", casmRoot := "c", cairoDir := "d" }
      (some "proj/test.txt")
      { spawnFails := true, exitCode := none, stderr := "",
        destRead := DestRead.openFail } =
      Outcome.ok
        { status := "FileExtensionNotSupported",
          message := "File extension not supported",
          file_content := "" } none ∧
    do_compile_to_casm
      { projectRoot := "u", sierraRoot := "s", casmRoot := "c", cairoDir := "d" }
      (some "proj/test.txt")
      { spawnFails := true, exitCode := none, stderr := "",
        destRead := DestRead.openFail } =
      Outcome.ok
        { status := "FileExtensionNotSupported",
          message := "File extension not supported",
          file_content := "" } none :=
  ⟨(validation_failure_short_circuits
      { projectRoot := "u", sierraRoot := "s", casmRoot := "c", cairoDir := "d" }
      "proj/test.txt"
      { spawnFails := true, exitCode := none, stderr := "",
        destRead := DestRead.openFail }).2.2.1 (by decide),
   (validation_failure_short_circuits
      { projectRoot := "u", sierraRoot := "s", casmRoot := "c", cairoDir := "d" }
      "proj/test.txt"
      { spawnFails := true, exitCode := none, stderr := "",
        destRead := DestRead.openFail }).2.2.2 (by decide)⟩

/-- C10: for every compile operation, a path that cannot be represented as
UTF-8 text yields the well-formed FileNotFound response with the message
File path not found and empty artifact content, without spawning any
subprocess. -/
theorem undecodable_path_handling (cfg : Config) (w : CompileWorld) (sw : ScarbWorld) :
    do_compile_to_sierra cfg none w =
      Outcome.ok
        { status := "FileNotFound",
          message := "File path not found",
          file_content := "" } none ∧
    do_compile_to_casm cfg none w =
      Outcome.ok
        { status := "FileNotFound",
          message := "File path not found",
          file_content := "" } none ∧
    do_scarb_compile cfg none sw =
      Outcome.ok
        { status := "FileNotFound",
          message := "File path not found",
          file_content_map_array := [] } none :=
  ⟨rfl, rfl, rfl⟩

/-- C4 counterexample: with project root u and relative path x.cairo the
resolved absolute source path is u/x.cairo; the captured stderr u/u/x.cairo
contains that absolute path, yet the sanitized message still contains (here
is exactly) the absolute path, because the single replacement pass splices
the substituted text with the adjacent text. -/
theorem sanitize_leaves_absolute_path :
    get_file_path { projectRoot := "u", sierraRoot := "s", casmRoot := "c", cairoDir := "d" }
      "x.cairo" = "u/x.cairo" ∧
    containsS "u/u/x.cairo" "u/x.cairo" = true ∧
    messageOf (do_compile_to_sierra
      { projectRoot := "u", sierraRoot := "s", casmRoot := "c", cairoDir := "d" }
      (some "x.cairo")
      { spawnFails := false, exitCode := some 1, stderr := "u/u/x.cairo",
        destRead := DestRead.openFail }) = some "u/x.cairo" ∧
    containsS "u/x.cairo" "u/x.cairo" = true := by
  decide

/-- C4 (amended): sanitization performs one left-to-right pass that replaces
each non-overlapping occurrence of the absolute path with the relative path;
whenever the captured text contains the absolute path the sanitized text
contains the relative path, but a replacement can splice with adjacent text,
so the sanitized text may still contain the absolute path. -/
theorem sanitize_inserts_relative_path (text abs rel : String)
    (habs : abs ≠ "") (h : containsS text abs = true) :
    containsS (replaceS text abs rel) rel = true := by
  have habs' : abs.data ≠ [] := by
    intro hd
    apply habs
    cases abs with
    | mk l =>
      simp only at hd
      subst hd
      rfl
  exact containsSub_replaceAll text.data abs.data rel.data habs' h

theorem sanitize_inserts_relative_path_witness :
    ("u/a.cairo" : String) ≠ "" ∧
    containsS "err at u/a.cairo" "u/a.cairo" = true ∧
    containsS (replaceS "err at u/a.cairo" "u/a.cairo" "a.cairo") "a.cairo" = true :=
  ⟨by decide, by decide,
   sanitize_inserts_relative_path "err at u/a.cairo" "u/a.cairo" "a.cairo"
     (by decide) (by decide)⟩

theorem get_file_ext_stem_dot (stem ext : String) (hdot : '.' ∉ ext.data) :
    get_file_ext (stem ++ String.mk ('.' :: ext.data)) = ext := by
  have h1 : (stem ++ String.mk ('.' :: ext.data)).data = stem.data ++ '.' :: ext.data := by
    rw [strData_append]
  unfold get_file_ext
  rw [h1, extOf_append_dot stem.data ext.data hdot]

theorem replaceS_stem_dot (stem ext new : String) (hdot : '.' ∉ ext.data)
    (hnc : containsS stem ext = false) (hne : ext.data ≠ []) :
    replaceS (stem ++ String.mk ('.' :: ext.data)) ext new =
      stem ++ String.mk ('.' :: new.data) := by
  have h1 : (stem ++ String.mk ('.' :: ext.data)).data = stem.data ++ '.' :: ext.data := by
    rw [strData_append]
  have h2 : (stem ++ String.mk ('.' :: new.data)).data = stem.data ++ '.' :: new.data := by
    rw [strData_append]
  unfold replaceS
  rw [h1]
  rw [replaceAll_skip_stem ext.data new.data hdot stem.data ext.data hnc]
  have h3 : replaceAll ext.data ext.data new.data = new.data := by
    cases hx : ext.data with
    | nil => exact absurd hx hne
    | cons p ps =>
      have h4 := replaceAll_head_occ p ps [] new.data
      simpa [replaceAll_nil] using h4
  rw [h3, ← h2, strMk_data]

/-- C5 counterexample: for the accepted path cairo/a.cairo the handler hands
the compiler the destination s/sierra/a.sierra, because every occurrence of
the extension substring in the relative path is rewritten; the destination
built per the claim, replacing only the final extension under the root, is
s/cairo/a.sierra, a different path, so a directory component was altered. -/
theorem dest_path_rewrites_other_components :
    do_compile_to_sierra
      { projectRoot := "u", sierraRoot := "s", casmRoot := "c", cairoDir := "d" }
      (some "cairo/a.cairo")
      { spawnFails := false, exitCode := some 0, stderr := "",
        destRead := DestRead.openFail } =
      Outcome.ok
        { status := "Success", message := "", file_content := "" }
        (some
          { program := "cargo", workdir := "d",
            args := [ "run", "--release", "--bin", "starknet-compile", "--",
              "u/cairo/a.cairo", "s/sierra/a.sierra", "--single-file" ] }) ∧
    specDestPath "s" "cairo/a.cairo" "sierra" = "s/cairo/a.sierra" ∧
    ("s/sierra/a.sierra" : String) ≠ "s/cairo/a.sierra" := by
  decide

/-- C5 (amended): for an accepted input path in which the extension substring
occurs only as the final extension, the destination handed to the compiler
is the relative path with that extension replaced (sierra for the Sierra
compile, casm for the CASM compile), joined under the respective output
root; when the extension substring also occurs elsewhere in the path, those
occurrences are rewritten as well. -/
theorem dest_path_replaces_extension (cfg : Config) (w : CompileWorld) (stem : String)
    (hnc : containsS stem "cairo" = false) (hns : containsS stem "sierra" = false)
    (hw : w.spawnFails = false) :
    (∃ resp, do_compile_to_sierra cfg (some (stem ++ ".cairo")) w =
      Outcome.ok resp (some
        { program := "cargo", workdir := cfg.cairoDir,
          args := [ "run", "--release", "--bin", "starknet-compile", "--",
            get_file_path cfg (stem ++ ".cairo"),
            pathJoin cfg.sierraRoot (stem ++ ".sierra"), "--single-file" ] })) ∧
    (∃ resp, do_compile_to_casm cfg (some (stem ++ ".sierra")) w =
      Outcome.ok resp (some
        { program := "cargo", workdir := cfg.cairoDir,
          args := [ "run", "--release", "--bin", "starknet-sierra-compile", "--",
            get_file_path cfg (stem ++ ".sierra"),
            pathJoin cfg.casmRoot (stem ++ ".casm") ] })) := by
  have hdc : ('.' : Char) ∉ ("cairo" : String).data := by decide
  have hds : ('.' : Char) ∉ ("sierra" : String).data := by decide
  have hcne : ("cairo" : String).data ≠ [] := by decide
  have hsne : ("sierra" : String).data ≠ [] := by decide
  have e1 : (".cairo" : String) = String.mk ('.' :: ("cairo" : String).data) := by decide
  have e2 : (".sierra" : String) = String.mk ('.' :: ("sierra" : String).data) := by decide
  have e3 : (".casm" : String) = String.mk ('.' :: ("casm" : String).data) := by decide
  constructor
  · have hext : get_file_ext (stem ++ ".cairo") = "cairo" := by
      rw [e1]
      exact get_file_ext_stem_dot stem "cairo" hdc
    have hrep : replaceS (stem ++ ".cairo") "cairo" "sierra" = stem ++ ".sierra" := by
      rw [e1, e2]
      exact replaceS_stem_dot stem "cairo" "sierra" hdc hnc hcne
    simp only [do_compile_to_sierra, hext, hw, hrep, Bool.false_eq_true, if_false, if_true,
      reduceIte]
    exact ⟨_, rfl⟩
  · have hext : get_file_ext (stem ++ ".sierra") = "sierra" := by
      rw [e2]
      exact get_file_ext_stem_dot stem "sierra" hds
    have hrep : replaceS (stem ++ ".sierra") "sierra" "casm" = stem ++ ".casm" := by
      rw [e2, e3]
      exact replaceS_stem_dot stem "sierra" "casm" hds hns hsne
    simp only [do_compile_to_casm, hext, hw, hrep, Bool.false_eq_true, if_false, if_true,
      reduceIte]
    exact ⟨_, rfl⟩

theorem dest_path_replaces_extension_witness :
    (∃ resp, do_compile_to_sierra
      { projectRoot := "u", sierraRoot := "s", casmRoot := "c", cairoDir := "d" }
      (some ("a" ++ ".cairo"))
      { spawnFails := false, exitCode := some 0, stderr := "",
        destRead := DestRead.openFail } =
      Outcome.ok resp (some
        { program := "cargo", workdir := "d",
          args := [ "run", "--release", "--bin", "starknet-compile", "--",
            get_file_path
              { projectRoot := "u", sierraRoot := "s", casmRoot := "c", cairoDir := "d" }
              ("a" ++ ".cairo"),
            pathJoin "s" ("a" ++ ".sierra"), "--single-file" ] })) ∧
    (∃ resp, do_compile_to_casm
      { projectRoot := "u", sierraRoot := "s", casmRoot := "c", cairoDir := "d" }
      (some ("a" ++ ".sierra"))
      { spawnFails := false, exitCode := some 0, stderr := "",
        destRead := DestRead.openFail } =
      Outcome.ok resp (some
        { program := "cargo", workdir := "d",
          args := [ "run", "--release", "--bin", "starknet-sierra-compile", "--",
            get_file_path
              { projectRoot := "u", sierraRoot := "s", casmRoot := "c", cairoDir := "d" }
              ("a" ++ ".sierra"),
            pathJoin "c" ("a" ++ ".casm") ] })) :=
  dest_path_replaces_extension
    { projectRoot := "u", sierraRoot := "s", casmRoot := "c", cairoDir := "d" }
    { spawnFails := false, exitCode := some 0, stderr := "",
      destRead := DestRead.openFail }
    "a" (by decide) (by decide) rfl

/-- C6 counterexample: when the destination file opens but read_to_string
fails, the response carries the display text of the read error, not the
empty string the claim requires for a failed read. -/
theorem file_content_not_empty_on_read_error :
    contentOf (do_compile_to_sierra
      { projectRoot := "u", sierraRoot := "s", casmRoot := "c", cairoDir := "d" }
      (some "a.cairo")
      { spawnFails := false, exitCode := some 0, stderr := "",
        destRead := DestRead.readErr "stream did not contain valid UTF-8" }) =
      some "stream did not contain valid UTF-8" ∧
    ("stream did not contain valid UTF-8" : String) ≠ "" := by
  decide

/-- C6 (amended): after running the compiler, file_content is the text of the
destination file when reading it back succeeds; it is the empty string when
the file cannot be opened (absent) or its path is not valid UTF-8; when the
file opens but reading fails, file_content is the display text of the read
error rather than the empty string. -/
theorem file_content_read_back (cfg : Config) (w : CompileWorld) (ps pc : String)
    (hs : get_file_ext ps = "cairo") (hc : get_file_ext pc = "sierra")
    (hw : w.spawnFails = false) :
    (∀ content, w.destRead = DestRead.readOk content →
      contentOf (do_compile_to_sierra cfg (some ps) w) = some content ∧
      contentOf (do_compile_to_casm cfg (some pc) w) = some content) ∧
    (w.destRead = DestRead.openFail →
      contentOf (do_compile_to_sierra cfg (some ps) w) = some "" ∧
      contentOf (do_compile_to_casm cfg (some pc) w) = some "") ∧
    (w.destRead = DestRead.pathInvalid →
      contentOf (do_compile_to_sierra cfg (some ps) w) = some "" ∧
      contentOf (do_compile_to_casm cfg (some pc) w) = some "") ∧
    (∀ msg, w.destRead = DestRead.readErr msg →
      contentOf (do_compile_to_sierra cfg (some ps) w) = some msg ∧
      contentOf (do_compile_to_casm cfg (some pc) w) = some msg) := by
  refine ⟨?_, ?_, ?_, ?_⟩
  · intro content hread
    constructor <;> simp [do_compile_to_sierra, do_compile_to_casm, hs, hc, hw, hread, contentOf]
  · intro hread
    constructor <;> simp [do_compile_to_sierra, do_compile_to_casm, hs, hc, hw, hread, contentOf]
  · intro hread
    constructor <;> simp [do_compile_to_sierra, do_compile_to_casm, hs, hc, hw, hread, contentOf]
  · intro msg hread
    constructor <;> simp [do_compile_to_sierra, do_compile_to_casm, hs, hc, hw, hread, contentOf]

theorem file_content_read_back_witness :
    contentOf (do_compile_to_sierra
      { projectRoot := "u", sierraRoot := "s", casmRoot := "c", cairoDir := "d" }
      (some "a.cairo")
      { spawnFails := false, exitCode := some 0, stderr := "",
        destRead := DestRead.readOk "sierra text" }) = some "sierra text" ∧
    contentOf (do_compile_to_casm
      { projectRoot := "u", sierraRoot := "s", casmRoot := "c", cairoDir := "d" }
      (some "a.sierra")
      { spawnFails := false, exitCode := some 0, stderr := "",
        destRead := DestRead.readOk "sierra text" }) = some "sierra text" :=
  (file_content_read_back
    { projectRoot := "u", sierraRoot := "s", casmRoot := "c", cairoDir := "d" }
    { spawnFails := false, exitCode := some 0, stderr := "",
      destRead := DestRead.readOk "sierra text" }
    "a.cairo" "a.sierra" (by decide) (by decide) rfl).1 "sierra text" rfl

/-- C7: after a completed Scarb build, the returned artifacts are the
recursive listing of target/dev under the resolved project directory; the
collection does not depend on the exit status of the build, and an absent
output directory yields the empty artifact list rather than an error. -/
theorem scarb_collects_target_dev (cfg : Config) (p : String) (w w2 : ScarbWorld)
    (hw : w.spawnFails = false) (hw2 : w2.spawnFails = false) (hfs : w.fs = w2.fs) :
    scarbFilesOf (do_scarb_compile cfg (some p) w) =
      some (get_files_recursive (w.fs (pathJoin (get_file_path cfg p) "target/dev"))) ∧
    scarbFilesOf (do_scarb_compile cfg (some p) w) =
      scarbFilesOf (do_scarb_compile cfg (some p) w2) ∧
    (w.fs (pathJoin (get_file_path cfg p) "target/dev") = none →
      scarbFilesOf (do_scarb_compile cfg (some p) w) = some []) := by
  refine ⟨?_, ?_, ?_⟩
  · simp [do_scarb_compile, hw, scarbFilesOf]
  · simp [do_scarb_compile, hw, hw2, hfs, scarbFilesOf]
  · intro h
    simp [do_scarb_compile, hw, scarbFilesOf, h, get_files_recursive]

theorem scarb_collects_target_dev_witness :
    scarbFilesOf (do_scarb_compile
      { projectRoot := "u", sierraRoot := "s", casmRoot := "c", cairoDir := "d" }
      (some "proj")
      { spawnFails := false, exitCode := some 1, stdout := "", stderr := "",
        fs := fun _ => none }) =
      some (get_files_recursive ((fun _ => (none : Option FsTree))
        (pathJoin (get_file_path
          { projectRoot := "u", sierraRoot := "s", casmRoot := "c", cairoDir := "d" }
          "proj") "target/dev"))) ∧
    scarbFilesOf (do_scarb_compile
      { projectRoot := "u", sierraRoot := "s", casmRoot := "c", cairoDir := "d" }
      (some "proj")
      { spawnFails := false, exitCode := some 1, stdout := "", stderr := "",
        fs := fun _ => none }) =
      scarbFilesOf (do_scarb_compile
        { projectRoot := "u", sierraRoot := "s", casmRoot := "c", cairoDir := "d" }
        (some "proj")
        { spawnFails := false, exitCode := some 0, stdout := "", stderr := "",
          fs := fun _ => none }) ∧
    ((fun _ => (none : Option FsTree)) (pathJoin (get_file_path
        { projectRoot := "u", sierraRoot := "s", casmRoot := "c", cairoDir := "d" }
        "proj") "target/dev") = none →
      scarbFilesOf (do_scarb_compile
        { projectRoot := "u", sierraRoot := "s", casmRoot := "c", cairoDir := "d" }
        (some "proj")
        { spawnFails := false, exitCode := some 1, stdout := "", stderr := "",
          fs := fun _ => none }) = some []) :=
  scarb_collects_target_dev
    { projectRoot := "u", sierraRoot := "s", casmRoot := "c", cairoDir := "d" }
    "proj"
    { spawnFails := false, exitCode := some 1, stdout := "", stderr := "",
      fs := fun _ => none }
    { spawnFails := false, exitCode := some 0, stdout := "", stderr := "",
      fs := fun _ => none }
    rfl rfl rfl

/-- C8: the recursive listing of a directory tree returns exactly one entry
per regular file whose content decodes, pairing base file name with content,
descending into every sub-directory and silently skipping files that do not
decode; and the collection is permutation-invariant under reordering of
directory iteration at every level. -/
theorem recursive_listing_characterization (dn : String) (cs cs2 : List FsTree) :
    (get_files_recursive (some (FsTree.dir dn cs))).length = decodableCount cs ∧
    (∀ nm content, ({ file_name := nm, file_content := content } : FileContentMap) ∈
        get_files_recursive (some (FsTree.dir dn cs)) ↔ FileIn nm content cs) ∧
    (Reorder cs cs2 →
      (get_files_recursive (some (FsTree.dir dn cs))).Perm
        (get_files_recursive (some (FsTree.dir dn cs2)))) := by
  refine ⟨?_, ?_, ?_⟩
  · simpa [get_files_recursive] using length_collectFiles cs
  · intro nm content
    simpa [get_files_recursive] using mem_collectFiles cs nm content
  · intro h
    simpa [get_files_recursive] using collectFiles_reorder cs cs2 h

theorem recursive_listing_characterization_witness :
    (get_files_recursive (some (FsTree.dir "dev"
      [ FsTree.file "a.txt" (some "x"),
        FsTree.dir "sub" [ FsTree.file "b.txt" (some "y") ] ]))).length =
      decodableCount
        [ FsTree.file "a.txt" (some "x"),
          FsTree.dir "sub" [ FsTree.file "b.txt" (some "y") ] ] ∧
    (({ file_name := "a.txt", file_content := "x" } : FileContentMap) ∈
      get_files_recursive (some (FsTree.dir "dev"
        [ FsTree.file "a.txt" (some "x"),
          FsTree.dir "sub" [ FsTree.file "b.txt" (some "y") ] ])) ↔
      FileIn "a.txt" "x"
        [ FsTree.file "a.txt" (some "x"),
          FsTree.dir "sub" [ FsTree.file "b.txt" (some "y") ] ]) ∧
    (get_files_recursive (some (FsTree.dir "dev"
      [ FsTree.file "a.txt" (some "x"),
        FsTree.dir "sub" [ FsTree.file "b.txt" (some "y") ] ]))).Perm
      (get_files_recursive (some (FsTree.dir "dev"
        [ FsTree.dir "sub" [ FsTree.file "b.txt" (some "y") ],
          FsTree.file "a.txt" (some "x") ]))) :=
  ⟨(recursive_listing_characterization "dev"
      [ FsTree.file "a.txt" (some "x"),
        FsTree.dir "sub" [ FsTree.file "b.txt" (some "y") ] ]
      [ FsTree.dir "sub" [ FsTree.file "b.txt" (some "y") ],
        FsTree.file "a.txt" (some "x") ]).1,
   (recursive_listing_characterization "dev"
      [ FsTree.file "a.txt" (some "x"),
        FsTree.dir "sub" [ FsTree.file "b.txt" (some "y") ] ]
      [ FsTree.dir "sub" [ FsTree.file "b.txt" (some "y") ],
        FsTree.file "a.txt" (some "x") ]).2.1 "a.txt" "x",
   (recursive_listing_characterization "dev"
      [ FsTree.file "a.txt" (some "x"),
        FsTree.dir "sub" [ FsTree.file "b.txt" (some "y") ] ]
      [ FsTree.dir "sub" [ FsTree.file "b.txt" (some "y") ],
        FsTree.file "a.txt" (some "x") ]).2.2
     (Reorder.swap (FsTree.file "a.txt" (some "x"))
       (FsTree.dir "sub" [ FsTree.file "b.txt" (some "y") ]) [])⟩

/-- C9: the version query returns the captured standard output of the
subprocess as plain text when that output is valid UTF-8, and yields
UnknownError when it is not. -/
theorem version_query_output (cfg : Config) (w : VersionWorld)
    (hw : w.spawnFails = false) :
    (∀ v, w.stdoutUtf8 = Except.ok v →
      cairo_version_endpoint cfg w = Outcome.ok v (some
        { program := "cargo", workdir := cfg.cairoDir,
          args := [ "run", "-q", "--release", "--bin", "cairo-compile", "--",
            "--version" ] })) ∧
    (∀ e, w.stdoutUtf8 = Except.error e →
      cairo_version_endpoint cfg w = Outcome.ok "UnknownError" (some
        { program := "cargo", workdir := cfg.cairoDir,
          args := [ "run", "-q", "--release", "--bin", "cairo-compile", "--",
            "--version" ] })) := by
  constructor
  · intro v hv
    simp [cairo_version_endpoint, do_cairo_version, hw, hv]
  · intro e he
    simp [cairo_version_endpoint, do_cairo_version, hw, he]

theorem version_query_output_witness :
    cairo_version_endpoint
      { projectRoot := "u", sierraRoot := "s", casmRoot := "c", cairoDir := "d" }
      { spawnFails := false, stdoutUtf8 := Except.ok "cairo-compile 1.0.0" } =
      Outcome.ok "cairo-compile 1.0.0" (some
        { program := "cargo", workdir := "d",
          args := [ "run", "-q", "--release", "--bin", "cairo-compile", "--",
            "--version" ] }) ∧
    cairo_version_endpoint
      { projectRoot := "u", sierraRoot := "s", casmRoot := "c", cairoDir := "d" }
      { spawnFails := false, stdoutUtf8 := Except.error "invalid utf-8 sequence" } =
      Outcome.ok "UnknownError" (some
        { program := "cargo", workdir := "d",
          args := [ "run", "-q", "--release", "--bin", "cairo-compile", "--",
            "--version" ] }) :=
  ⟨(version_query_output
      { projectRoot := "u", sierraRoot := "s", casmRoot := "c", cairoDir := "d" }
      { spawnFails := false, stdoutUtf8 := Except.ok "cairo-compile 1.0.0" }
      rfl).1 "cairo-compile 1.0.0" rfl,
   (version_query_output
      { projectRoot := "u", sierraRoot := "s", casmRoot := "c", cairoDir := "d" }
      { spawnFails := false, stdoutUtf8 := Except.error "invalid utf-8 sequence" }
      rfl).2 "invalid utf-8 sequence" rfl⟩
